import Mathlib

/-!
Verification of the FEPyio serialization engine (`fepyio`): a shallow
embedding of the generic `FebBase.to_dict` path, its dict utilities
(`prune_dict`, `unlist_dict`), the key conversion (`prop_to_xml`,
`FebBase._convert_key`), the type-specific overrides relevant to the
claims (`Mesh.to_dict`, `Boundary.to_dict`, `FixedBoundary.to_dict`,
`Surface.to_dict`, `Feb.to_dict`) and the construction-time array-shape
checks (`Elements.__post_init__`, `LoadCurve.__post_init__`).
-/

namespace Fepyio

/-- Values appearing in the nested mappings produced by `to_dict`.
`str`/`int` are Python scalars; `onone` is Python `None` appearing as a
value; `obj` is a (ordered) `dict`; `arr` is a Python `list`; `tup` is a
Python `tuple` (Sized but not a `list`, so never collapsed by
`unlist_dict`); `enumObj` is a raw `FebEnum` member (not Sized);
`pyobj` is an unserialized Python object such as a `FebBase` instance
(not Sized). -/
inductive DVal where
  | str : String → DVal
  | int : Int → DVal
  | onone : DVal
  | obj : List (String × DVal) → DVal
  | arr : List DVal → DVal
  | tup : List DVal → DVal
  | enumObj : String → DVal
  | pyobj : String → DVal

/-- Python `value is None` for a `DVal`. -/
def isNone : DVal → Bool
  | .onone => true
  | _ => false

/-- Python `isinstance(value, Sized)`: strings, dicts, lists and tuples
implement `__len__`; `None`, numbers, enum members and plain objects do
not. -/
def isSized : DVal → Bool
  | .str _ => true
  | .obj _ => true
  | .arr _ => true
  | .tup _ => true
  | _ => false

/-- Python `len(value)` for the Sized values (0 elsewhere; `prune_dict`
only evaluates it on Sized values). -/
def dlen : DVal → Nat
  | .str s => s.length
  | .obj entries => entries.length
  | .arr elems => elems.length
  | .tup elems => elems.length
  | _ => 0

/-- `fepyio.utils.dict_utils.prune_dict`: drop keys whose value is
`None`; with `prune_empty_iterables=True` additionally drop keys whose
value is a `Sized` of length 0. -/
def prune_dict (d : List (String × DVal)) (pruneEmptyIterables : Bool) :
    List (String × DVal) :=
  if pruneEmptyIterables then
    d.filter (fun kv => !(isNone kv.2) && (!(isSized kv.2) || !(dlen kv.2 == 0)))
  else
    d.filter (fun kv => !(isNone kv.2))

/-- The per-entry transformation of `unlist_dict`: a Python `list` of
length 1 is replaced by its sole element; everything else passes
through. -/
def unlistEntry : String × DVal → String × DVal
  | (key, .arr [x]) => (key, x)
  | (key, v) => (key, v)

/-- `fepyio.utils.dict_utils.unlist_dict`: replace any single-item list
values with the single item. -/
def unlist_dict (d : List (String × DVal)) : List (String × DVal) :=
  d.map unlistEntry

/-- `fepyio.utils.xmltodict_key_converter.prop_to_xml`. The Python code
tests `key.startswith("__")` (then `key.startswith("_")`) and applies
`key.replace("__", "#", 1)` (resp. `"_" → "@"`); under the `startswith`
guard the first occurrence is the leading one, so the conversion
replaces the leading marker, modelled here by matching on the leading
characters. -/
def prop_to_xml (key : String) : String :=
  match key.data with
  | '_' :: '_' :: rest => String.mk ('#' :: rest)
  | '_' :: rest => String.mk ('@' :: rest)
  | _ => key

/-- `FebBase._convert_key`: `prop_to_xml(key) if key not in self._at_names
else f"@{key}"`. The `_at_names` set is modelled as a list of names. -/
def convert_key (atNames : List String) (key : String) : String :=
  if key ∈ atNames then "@" ++ key else prop_to_xml key

/-- A field value as seen by the generic `FebBase.to_dict`:
`vnone` is an unset (`None`) field; `scalar` is any non-`FebBase`,
non-`FebEnum`, non-`list` Python value emitted verbatim (a Python list
of such scalars may equivalently be written `scalar (.arr ...)`, since
the list branch of `to_dict` leaves non-`FebBase` elements unchanged);
`enum` is a `FebEnum` member carrying its wire value (`get_value()`);
`record` is a nested `FebBase` serialized by the same generic path, with
its `_key`, its `_at_names` and its dataclass fields; `custom` is a
nested `FebBase` whose class overrides `to_dict`, carrying its `_key`
and the mapping its override returns; `list` is a Python list of
arbitrary field values. -/
inductive FebValue where
  | vnone : FebValue
  | scalar : DVal → FebValue
  | enum : String → FebValue
  | record : String → List String → List (String × FebValue) → FebValue
  | custom : String → List (String × DVal) → FebValue
  | list : List FebValue → FebValue

mutual

/-- The raw (unserialized) Python value of a `FebValue`, used for list
elements that are themselves lists: the generic path never recurses
into them. -/
def rawDVal : FebValue → DVal
  | .vnone => .onone
  | .scalar v => v
  | .enum w => .enumObj w
  | .record key _ _ => .pyobj key
  | .custom key _ => .pyobj key
  | .list elems => .arr (rawList elems)

def rawList : List FebValue → List DVal
  | [] => []
  | v :: rest => rawDVal v :: rawList rest

end

mutual

/-- `FebBase.to_dict` (generic path, `fepyio/feb_base.py`): build the
field dictionary, then `prune_dict(unlist_dict(_dict),
prune_empty_iterables=True)`. -/
def serializeRec (atNames : List String) (fields : List (String × FebValue)) :
    List (String × DVal) :=
  prune_dict (unlist_dict (serializeFields atNames fields)) true

/-- The field loop of `FebBase.to_dict`: skip the `_key` field, skip
`None` fields, serialize each element of a list-valued field (keyed by
the field's name), extract a `FebEnum`'s value, emit a nested `FebBase`
under its own converted `_key`, and emit anything else verbatim under
the converted field name. -/
def serializeFields (atNames : List String) :
    List (String × FebValue) → List (String × DVal)
  | [] => []
  | (name, v) :: rest =>
    if name = "_key" then serializeFields atNames rest
    else
      match v with
      | .vnone => serializeFields atNames rest
      | .list elems =>
          (convert_key atNames name, .arr (serializeElems elems)) ::
            serializeFields atNames rest
      | .enum w =>
          (convert_key atNames name, .str w) :: serializeFields atNames rest
      | .record key kAtNames kFields =>
          (convert_key atNames key, .obj (serializeRec kAtNames kFields)) ::
            serializeFields atNames rest
      | .custom key d =>
          (convert_key atNames key, .obj d) :: serializeFields atNames rest
      | .scalar dv =>
          (convert_key atNames name, dv) :: serializeFields atNames rest

/-- List branch of `FebBase.to_dict`: `[_to_dict(value)[1] for value in
field_val]` — each `FebBase` element becomes its own `to_dict()`, any
other element passes through unchanged. -/
def serializeElems : List FebValue → List DVal
  | [] => []
  | v :: rest => serializeElem v :: serializeElems rest

/-- `_to_dict(value)[1]` for a list element. -/
def serializeElem : FebValue → DVal
  | .record _ kAtNames kFields => .obj (serializeRec kAtNames kFields)
  | .custom _ d => .obj d
  | v => rawDVal v

end

/-- `fepyio.boundary.BoundaryType` (a `FebEnum`). -/
inductive BoundaryType where
  | fix | prescribe | rigid | linearConstraint

/-- `BoundaryType` wire values (`get_value()` returns `self.value`). -/
def BoundaryType.getValue : BoundaryType → String
  | .fix => "fix"
  | .prescribe => "prescribe"
  | .rigid => "rigid"
  | .linearConstraint => "linear constraint"

/-- `FixedBoundary.to_dict` (`fepyio/boundary.py`): the three attribute
keys plus the comma-joined `dofs` tuple; `type` is pinned to
`BoundaryType.FIX` by the dataclass (`init=False`). -/
def FixedBoundary.to_dict (name nodeSet : String) (dofs : List String) :
    List (String × DVal) :=
  [("@name", .str name),
   ("@type", .str BoundaryType.fix.getValue),
   ("@node_set", .str nodeSet),
   ("dofs", .str (",".intercalate dofs))]

/-- `Boundary.to_dict` (`fepyio/boundary.py`): `{"bc": [bc.to_dict() for
bc in self.boundary_conditions]}` passed through `prune_dict` (with the
default `prune_empty_iterables=False`). Each boundary condition is
represented by the mapping its `to_dict` returns. -/
def Boundary.to_dict (boundaryConditions : List (List (String × DVal))) :
    List (String × DVal) :=
  prune_dict [("bc", .arr (boundaryConditions.map .obj))] false

/-- `Mesh.to_dict` (`fepyio/mesh.py`): the four fixed keys over the four
list fields, passed through `prune_dict` (with the default
`prune_empty_iterables=False`). Each child is represented by the mapping
its `to_dict` returns. -/
def Mesh.to_dict (nodes elements nodeSets surfaces : List (List (String × DVal))) :
    List (String × DVal) :=
  prune_dict
    [("Nodes", .arr (nodes.map .obj)),
     ("Elements", .arr (elements.map .obj)),
     ("NodeSet", .arr (nodeSets.map .obj)),
     ("Surface", .arr (surfaces.map .obj))] false

/-- `fepyio.mesh.FaceType` (a `FebEnum`). -/
inductive FaceType where
  | quad4 | quad8 | tri3 | tri6 | tri7
deriving DecidableEq

/-- `FaceType` wire values (`get_value()` returns `self.value`). -/
def FaceType.getValue : FaceType → String
  | .quad4 => "quad4"
  | .quad8 => "quad8"
  | .tri3 => "tri3"
  | .tri6 => "tri6"
  | .tri7 => "tri7"

/-- `fepyio.mesh.Face`: the fields `Surface.to_dict` reads (its `nodes`
array is a vector of node indices). -/
structure Face where
  type : FaceType
  id : Int
  nodes : List Nat
deriving DecidableEq

/-- Loop body of `Surface._group_faces`: start a new group for an unseen
`face.type.get_value()` key (Python dict insertion order = first-seen
order), else append to that key's group. -/
def addFace (groups : List (String × List Face)) (f : Face) :
    List (String × List Face) :=
  if f.type.getValue ∈ groups.map Prod.fst then
    groups.map (fun g => if g.1 = f.type.getValue then (g.1, g.2 ++ [f]) else g)
  else
    groups ++ [(f.type.getValue, [f])]

/-- `Surface._group_faces` (`fepyio/mesh.py`): fold the faces into a
dictionary grouped by face type. -/
def Surface.groupFaces (faces : List Face) : List (String × List Face) :=
  faces.foldl addFace []

/-- The `{"@id": face.id, "#text": ",".join(map(str, face.nodes))}`
entry built for each face inside `Surface.to_dict`. -/
def Face.entry (f : Face) : DVal :=
  .obj [("@id", .int f.id),
        ("#text", .str (",".intercalate (f.nodes.map toString)))]

/-- `Surface.to_dict` (`fepyio/mesh.py`): serialize each group of the
grouped faces, `unlist_dict` the grouping, and put it after the
`"@name"` entry. -/
def Surface.to_dict (name : String) (faces : List Face) :
    List (String × DVal) :=
  ("@name", .str name) ::
    unlist_dict ((Surface.groupFaces faces).map
      (fun g => (g.1, .arr (g.2.map Face.entry))))

/-- Statement helper: the value `unlist_dict` leaves for a key holding a
Python list — a singleton list collapses to its sole element. -/
def collapse (l : List DVal) : DVal :=
  match l with
  | [x] => x
  | _ => .arr l

/-- Statement helper: the face-type wire values in order of first
appearance, starting from already-seen keys `ks` (Python dict insertion
order). -/
def seenFrom (ks : List String) (faces : List Face) : List String :=
  faces.foldl
    (fun acc f => if f.type.getValue ∈ acc then acc else acc ++ [f.type.getValue]) ks

/-- Statement helper: the distinct face-type wire values of a face list
in first-seen order. -/
def seenFaceTypes (faces : List Face) : List String :=
  seenFrom [] faces

/-- Statement helper: the faces of a given type, in their original
relative order. -/
def facesOf (faces : List Face) (t : String) : List Face :=
  faces.filter (fun f => f.type.getValue = t)

/-- `fepyio.mesh.ElementType` (a `FebEnum`). -/
inductive ElementType where
  | hex8 | hex20 | hex27 | penta6 | penta15 | pyra5 | tet4 | tet10 | tet15

/-- `ElementType` wire values (`get_value()` returns `self.value`). -/
def ElementType.getValue : ElementType → String
  | .hex8 => "hex8"
  | .hex20 => "hex20"
  | .hex27 => "hex27"
  | .penta6 => "penta6"
  | .penta15 => "penta15"
  | .pyra5 => "pyra5"
  | .tet4 => "tet4"
  | .tet10 => "tet10"
  | .tet15 => "tet15"

/-- Python `str(self.type)` for an `ElementType` member, used in the
`extra` text of the shape error. -/
def ElementType.pyStr : ElementType → String
  | .hex8 => "ElementType.HEX8"
  | .hex20 => "ElementType.HEX20"
  | .hex27 => "ElementType.HEX27"
  | .penta6 => "ElementType.PENTA6"
  | .penta15 => "ElementType.PENTA15"
  | .pyra5 => "ElementType.PYRA5"
  | .tet4 => "ElementType.TET4"
  | .tet10 => "ElementType.TET10"
  | .tet15 => "ElementType.TET15"

/-- `int("".join([ch for ch in s if ch.isnumeric()]))`: the number read
from the digit characters of `s`, in order. -/
def digitsVal (s : String) : Nat :=
  s.data.foldl (fun acc c => if c.isDigit then acc * 10 + (c.toNat - 48) else acc) 0

/-- The `array_shape` payload of an `ArrayShapeError`: either a numpy
shape tuple or a plain `len(...)` integer. -/
inductive PyShape where
  | tup : List Nat → PyShape
  | int : Nat → PyShape
deriving DecidableEq

/-- `fepyio.exceptions.ArrayShapeError`: the structured context the
exception carries (the `message` field keeps its default format string
and is omitted). -/
structure ArrayShapeError where
  array_name : String
  array_shape : PyShape
  expected_shape : String
  extra : Option String
deriving DecidableEq

/-- `Elements.__post_init__` (`fepyio/mesh.py`): derive the expected
width from the digits of the element type's wire value, check the
`elements` array is 2-D with that width, then check `ids` is 1-D with
the same leading dimension. Arrays are represented by their shapes. -/
def Elements.postInit (ty : ElementType) (elementsShape idsShape : List Nat) :
    Except ArrayShapeError Unit :=
  let numElements := digitsVal ty.getValue
  if elementsShape.length ≠ 2 ∨ elementsShape.getD 1 0 ≠ numElements then
    .error { array_name := "elements", array_shape := .tup elementsShape,
             expected_shape := "(n, " ++ toString numElements ++ ",)",
             extra := some ("for type '" ++ ty.pyStr ++ "'") }
  else if idsShape.length ≠ 1 ∨ idsShape.getD 0 0 ≠ elementsShape.getD 0 0 then
    .error { array_name := "ids", array_shape := .tup idsShape,
             expected_shape := "(" ++ toString (elementsShape.getD 0 0) ++ ",)",
             extra := none }
  else .ok ()

/-- The `points` argument of a `LoadCurve`: either a Python list of
`(x, y)` tuples or a numpy array, represented by its shape. -/
inductive LoadCurvePoints where
  | list : List (Int × Int) → LoadCurvePoints
  | ndarray : List Nat → LoadCurvePoints

/-- `LoadCurve.__post_init__` (`fepyio/load_data.py`): a numpy `points`
array must have shape `(n, 2)` with `n >= 2`; a list of points must
have at least 2 entries. -/
def LoadCurve.postInit (points : LoadCurvePoints) : Except ArrayShapeError Unit :=
  match points with
  | .ndarray shape =>
    if ¬(shape.length = 2 ∧ 2 ≤ shape.getD 0 0 ∧ shape.getD 1 0 = 2) then
      .error { array_name := "points", array_shape := .tup shape,
               expected_shape := "(n, 2), where n >= 2", extra := none }
    else .ok ()
  | .list pts =>
    if pts.length < 2 then
      .error { array_name := "points", array_shape := .int pts.length,
               expected_shape := "(n, 2), where n >= 2", extra := none }
    else .ok ()

/-- The dataclass fields of `Feb` (`fepyio/feb.py`), in declaration
order: the ten child sections (each a `FebBase` subclass overriding
`to_dict`, contributing its own `_key` — the class names, none of the
classes overriding `_key` for these), then `_version`, then the `_key`
dataclass field (default `"febio_spec"`). Each child is represented by
its `_key` and the mapping its `to_dict` override returns. -/
def febFields
    (moduleD controlD globalsD materialD meshD meshDomainsD boundaryD loadsD
      loadDataD outputD : List (String × DVal)) (version : String) :
    List (String × FebValue) :=
  [("module", .custom "Module" moduleD),
   ("control", .custom "Control" controlD),
   ("globals", .custom "Globals" globalsD),
   ("material", .custom "Material" materialD),
   ("mesh", .custom "Mesh" meshD),
   ("mesh_domains", .custom "MeshDomains" meshDomainsD),
   ("boundary", .custom "Boundary" boundaryD),
   ("loads", .custom "Loads" loadsD),
   ("load_data", .custom "LoadData" loadDataD),
   ("output", .custom "Output" outputD),
   ("_version", .scalar (.str version)),
   ("_key", .scalar (.str "febio_spec"))]

/-- `Feb.to_dict` (`fepyio/feb.py`): `{self._key: super().to_dict()}` —
the generic serialization of the `Feb` fields wrapped under the root
tag (`Feb._at_names` is the inherited empty default). -/
def Feb.to_dict
    (moduleD controlD globalsD materialD meshD meshDomainsD boundaryD loadsD
      loadDataD outputD : List (String × DVal)) (version : String) :
    List (String × DVal) :=
  [("febio_spec", .obj (serializeRec []
    (febFields moduleD controlD globalsD materialD meshD meshDomainsD boundaryD
      loadsD loadDataD outputD version)))]

/-! ## Helper lemmas -/

theorem serializeFields_append (atNames : List String) (l1 l2 : List (String × FebValue)) :
    serializeFields atNames (l1 ++ l2) =
      serializeFields atNames l1 ++ serializeFields atNames l2 := by
  induction l1 with
  | nil => simp [serializeFields]
  | cons hd tl ih =>
    obtain ⟨name, v⟩ := hd
    cases v <;> by_cases h : name = "_key" <;> simp [serializeFields, h, ih]

theorem prop_to_xml_double (rest : List Char) (k : String) (h : k.data = '_' :: '_' :: rest) :
    prop_to_xml k = "#" ++ String.mk rest := by
  obtain ⟨d⟩ := k
  simp only [String.data] at h
  subst h
  rfl

theorem prop_to_xml_single (c : Char) (rest : List Char) (hc : c ≠ '_') (k : String)
    (h : k.data = '_' :: c :: rest) :
    prop_to_xml k = "@" ++ String.mk (c :: rest) := by
  obtain ⟨d⟩ := k
  simp only [String.data] at h
  subst h
  unfold prop_to_xml
  split
  · rename_i heq; simp at heq; exact absurd heq.1 hc
  · rename_i heq; simp only [List.cons.injEq, true_and] at heq
    rw [heq]; rfl
  · rename_i h1 h2; exact absurd rfl (h2 (c :: rest))

theorem prop_to_xml_underscore (k : String) (h : k.data = ['_']) : prop_to_xml k = "@" := by
  obtain ⟨d⟩ := k
  simp only [String.data] at h
  subst h
  rfl

theorem prop_to_xml_plain (k : String) (h : ∀ rest : List Char, k.data ≠ '_' :: rest) :
    prop_to_xml k = k := by
  unfold prop_to_xml
  split
  · rename_i heq; exact absurd heq (h _)
  · rename_i heq; exact absurd heq (h _)
  · rfl

theorem unlistEntry_of_nonsingle (key : String) (v : DVal)
    (h : ∀ x : DVal, v ≠ .arr [x]) : unlistEntry (key, v) = (key, v) := by
  cases v with
  | arr l =>
    cases l with
    | nil => rfl
    | cons a t =>
      cases t with
      | nil => exact absurd rfl (h a)
      | cons b t2 => rfl
  | str s => rfl
  | int n => rfl
  | onone => rfl
  | obj es => rfl
  | tup es => rfl
  | enumObj w => rfl
  | pyobj w => rfl

/-! ## Claims -/

/-- C1 (corrected). The generic `FebBase.to_dict` path never emits a
`None` value or a `Sized` value of length 0 (so keys whose value is or
recursively becomes an empty mapping/sequence are removed), and an
unset (`None`) field contributes nothing; but `Mesh.to_dict` calls
`prune_dict` without `prune_empty_iterables`, so a `Mesh` with all four
list fields empty serializes to a mapping whose four values are all
empty sequences. -/
theorem c1_pruning :
    (∀ (atNames : List String) (fields : List (String × FebValue)) (kv : String × DVal),
        kv ∈ serializeRec atNames fields →
          isNone kv.2 = false ∧ (isSized kv.2 = true → 0 < dlen kv.2))
    ∧ (∀ (atNames : List String) (pre post : List (String × FebValue)) (name : String),
        serializeRec atNames (pre ++ (name, FebValue.vnone) :: post) =
          serializeRec atNames (pre ++ post))
    ∧ Mesh.to_dict [] [] [] [] =
        [("Nodes", .arr []), ("Elements", .arr []), ("NodeSet", .arr []),
         ("Surface", .arr [])] := by
  refine ⟨?_, ?_, rfl⟩
  · intro atNames fields kv hkv
    simp only [serializeRec, prune_dict, if_true] at hkv
    have h := (List.mem_filter.mp hkv).2
    simp only [Bool.and_eq_true, Bool.or_eq_true, Bool.not_eq_true'] at h
    refine ⟨h.1, fun hs => ?_⟩
    rcases h.2 with h2 | h2
    · rw [hs] at h2; cases h2
    · simp only [beq_eq_false_iff_ne, ne_eq] at h2
      omega
  · intro atNames pre post name
    simp [serializeRec, serializeFields_append, serializeFields]

/-- C1 counterexample: a `Mesh` constructed with all four of its list
fields empty serializes to a mapping that does contain empty-sequence
values (the claim says it contains none). -/
theorem c1_counterexample :
    ("Nodes", DVal.arr []) ∈ Mesh.to_dict [] [] [] [] ∧
      isSized (DVal.arr []) = true ∧ dlen (DVal.arr []) = 0 := by
  refine ⟨?_, rfl, rfl⟩
  show ("Nodes", DVal.arr []) ∈
    [("Nodes", DVal.arr []), ("Elements", DVal.arr []), ("NodeSet", DVal.arr []),
     ("Surface", DVal.arr [])]
  exact List.Mem.head _

/-- C1 witness: the generic-path part of the theorem applied at a
concrete one-field record. -/
theorem c1_witness :
    ("a", DVal.str "x") ∈ serializeRec [] [("a", FebValue.scalar (.str "x"))] ∧
      isNone (DVal.str "x") = false ∧
      (isSized (DVal.str "x") = true → 0 < dlen (DVal.str "x")) := by
  have hm : ("a", DVal.str "x") ∈ serializeRec [] [("a", FebValue.scalar (.str "x"))] := by
    simp +decide [serializeRec, serializeFields, unlist_dict, unlistEntry, prune_dict,
      isNone, isSized, dlen, convert_key, prop_to_xml, List.filter_cons]
  have h := c1_pruning.1 [] [("a", FebValue.scalar (.str "x"))] ("a", DVal.str "x") hm
  exact ⟨hm, h.1, h.2⟩

/-- C2 (code bug): `Boundary.to_dict` applies `prune_dict` but not
`unlist_dict`, so a one-element `boundary_conditions` list stays
wrapped as a length-1 list under `"bc"` instead of collapsing to the
single serialized boundary condition (the spec and the repository's
`test_boundary` expect the collapsed form). This theorem evaluates the
code at the failing input. -/
theorem c2_boundary_not_collapsed :
    Boundary.to_dict [FixedBoundary.to_dict "f" "ns" ["x", "y", "z"]] =
      [("bc", DVal.arr [.obj (FixedBoundary.to_dict "f" "ns" ["x", "y", "z"])])] := rfl

/-- C3 (confirmed): `FixedBoundary(name="f", node_set="ns",
dofs=("x","y","z")).to_dict()` is exactly the four-entry mapping with
the three `@`-prefixed attribute keys, the wire value `"fix"` for the
type, and the comma-joined dofs string. -/
theorem c3_fixed_boundary :
    FixedBoundary.to_dict "f" "ns" ["x", "y", "z"] =
      [("@name", DVal.str "f"), ("@type", DVal.str "fix"),
       ("@node_set", DVal.str "ns"), ("dofs", DVal.str "x,y,z")] := rfl

/-- C4 (confirmed): `_convert_key` prepends `"@"` to any field name in
`_at_names`; otherwise it applies the default convention: a leading
double underscore becomes `"#"`, a leading single underscore becomes
`"@"`, and any other name passes through unchanged. -/
theorem c4_key_conversion (atNames : List String) (k : String) :
    (k ∈ atNames → convert_key atNames k = "@" ++ k)
    ∧ (k ∉ atNames → ∀ rest : List Char, k.data = '_' :: '_' :: rest →
        convert_key atNames k = "#" ++ String.mk rest)
    ∧ (k ∉ atNames → ∀ (c : Char) (rest : List Char), c ≠ '_' →
        k.data = '_' :: c :: rest → convert_key atNames k = "@" ++ String.mk (c :: rest))
    ∧ (k ∉ atNames → k.data = ['_'] → convert_key atNames k = "@")
    ∧ (k ∉ atNames → (∀ rest : List Char, k.data ≠ '_' :: rest) →
        convert_key atNames k = k) := by
  refine ⟨fun h => ?_, fun h rest hd => ?_, fun h c rest hc hd => ?_,
    fun h hd => ?_, fun h hd => ?_⟩
  · rw [convert_key, if_pos h]
  · rw [convert_key, if_neg h, prop_to_xml_double rest k hd]
  · rw [convert_key, if_neg h, prop_to_xml_single c rest hc k hd]
  · rw [convert_key, if_neg h, prop_to_xml_underscore k hd]
  · rw [convert_key, if_neg h, prop_to_xml_plain k hd]

/-- C4 witness: the four conversion branches at concrete keys, via the
theorem. -/
theorem c4_witness :
    ("dofs" ∈ ["dofs"] ∧ convert_key ["dofs"] "dofs" = "@dofs")
    ∧ convert_key [] "__text" = "#text"
    ∧ convert_key [] "_id" = "@id"
    ∧ convert_key [] "value" = "value" := by
  refine ⟨⟨by simp, (c4_key_conversion ["dofs"] "dofs").1 (by simp)⟩, ?_, ?_, ?_⟩
  · exact (c4_key_conversion [] "__text").2.1 (by simp) ['t', 'e', 'x', 't'] rfl
  · exact (c4_key_conversion [] "_id").2.2.1 (by simp) 'i' ['d'] (by decide) rfl
  · refine (c4_key_conversion [] "value").2.2.2.2 (by simp) ?_
    intro rest h
    rw [show "value".data = ['v', 'a', 'l', 'u', 'e'] from rfl] at h
    simp at h

/-- C6 counterexample: a record whose only field `"child"` holds a
one-element list containing a record tagged `"Thing"` serializes that
value under the field's declared name `"child"`, not under the
element's own tag — refuting the claim for list-valued fields. -/
theorem c6_counterexample :
    serializeRec [] [("child", FebValue.list
        [.record "Thing" [] [("a", .scalar (.str "v"))]])] =
      [("child", DVal.obj [("a", DVal.str "v")])] ∧ "child" ≠ "Thing" := by
  constructor
  · simp +decide [serializeRec, serializeFields, serializeElems, serializeElem, rawDVal,
      convert_key, prop_to_xml, unlist_dict, unlistEntry, prune_dict, isNone,
      isSized, dlen, List.filter_cons]
  · decide

/-- C6 (corrected): in the generic path a field whose value is directly
a nested record is emitted under the record's own `_key` (passed
through the parent's key conversion), not under the field's declared
name; list-valued fields are instead keyed by the field's name (see the
counterexample). -/
theorem c6_embedded_record_tag (atNames : List String)
    (pre post : List (String × FebValue)) (name key : String)
    (kAtNames : List String) (kFields : List (String × FebValue))
    (hname : name ≠ "_key") (hne : serializeRec kAtNames kFields ≠ []) :
    (convert_key atNames key, DVal.obj (serializeRec kAtNames kFields)) ∈
      serializeRec atNames (pre ++ (name, FebValue.record key kAtNames kFields) :: post) := by
  set inner := serializeRec kAtNames kFields with hi
  have hfields : serializeFields atNames
      (pre ++ (name, FebValue.record key kAtNames kFields) :: post) =
      serializeFields atNames pre ++
        (convert_key atNames key, DVal.obj inner) ::
          serializeFields atNames post := by
    rw [serializeFields_append]
    simp [serializeFields, hname, hi]
  rw [serializeRec.eq_def, hfields]
  simp only [unlist_dict, List.map_append, List.map_cons]
  have he : unlistEntry (convert_key atNames key, DVal.obj inner) =
      (convert_key atNames key, DVal.obj inner) := rfl
  rw [he]
  simp only [prune_dict, if_true]
  apply List.mem_filter.mpr
  refine ⟨List.mem_append.mpr (Or.inr (List.mem_cons_self _ _)), ?_⟩
  simp [isNone, isSized, dlen, List.length_eq_zero, hne]

/-- C6 witness: the amended theorem at a concrete record with a
directly-embedded child tagged `"Thing"`. -/
theorem c6_witness :
    ("Thing", DVal.obj (serializeRec [] [("a", FebValue.scalar (.str "v"))])) ∈
      serializeRec [] [("child", FebValue.record "Thing" []
        [("a", FebValue.scalar (.str "v"))])] := by
  have h := c6_embedded_record_tag [] [] [] "child" "Thing" []
    [("a", FebValue.scalar (.str "v"))] (by decide)
    (by simp +decide [serializeRec, serializeFields, unlist_dict, unlistEntry, prune_dict,
      isNone, isSized, dlen, convert_key, prop_to_xml, List.filter_cons])
  simpa [convert_key, prop_to_xml] using h

/-- C10 (confirmed): in the generic path, a set field whose value is
`Sized` with length 0 — including the empty string, not only empty
mappings and sequences — is pruned from the output exactly as if the
field were unset. -/
theorem c10_empty_sized_like_unset (atNames : List String)
    (pre post : List (String × FebValue)) (name : String) (v : DVal)
    (hs : isSized v = true) (hz : dlen v = 0) :
    serializeRec atNames (pre ++ (name, FebValue.scalar v) :: post) =
      serializeRec atNames (pre ++ (name, FebValue.vnone) :: post) := by
  by_cases hk : name = "_key"
  · subst hk
    simp [serializeRec, serializeFields_append, serializeFields]
  · have hmid : serializeFields atNames ((name, FebValue.scalar v) :: post) =
        (convert_key atNames name, v) :: serializeFields atNames post := by
      simp [serializeFields, hk]
    have hmid2 : serializeFields atNames ((name, FebValue.vnone) :: post) =
        serializeFields atNames post := by
      simp [serializeFields, hk]
    have hnotsingle : ∀ x : DVal, v ≠ .arr [x] := by
      intro x hx
      rw [hx] at hz
      simp [dlen] at hz
    have hpred : (!(isNone v) && (!(isSized v) || !(dlen v == 0))) = false := by
      rw [hs, hz]
      simp
    simp only [serializeRec, serializeFields_append, hmid, hmid2, unlist_dict,
      List.map_append, List.map_cons,
      unlistEntry_of_nonsingle (convert_key atNames name) v hnotsingle,
      prune_dict, if_true, List.filter_append, List.filter_cons, hpred,
      Bool.false_eq_true, if_false]

/-- C10 witness: a field holding the empty string serializes exactly as
the unset field, at a concrete two-field record. -/
theorem c10_witness :
    isSized (DVal.str "") = true ∧ dlen (DVal.str "") = 0 ∧
      serializeRec [] [("a", FebValue.scalar (.str "keep")), ("b", FebValue.scalar (.str ""))] =
        serializeRec [] [("a", FebValue.scalar (.str "keep")), ("b", FebValue.vnone)] := by
  refine ⟨rfl, rfl, ?_⟩
  exact c10_empty_sized_like_unset [] [("a", FebValue.scalar (.str "keep"))] []
    "b" (.str "") rfl rfl

/-- C7 (confirmed): an `Elements` block of type `TET4` with a
connectivity array of width 8 fails at construction with an
`ArrayShapeError` naming `"elements"` and expected width 4; a 2-D array
of width 4 passes the `elements` check (any remaining failure is the
separate `"ids"` check). -/
theorem c7_elements_shape (m : Nat) (ids : List Nat) :
    Elements.postInit ElementType.tet4 [m, 8] ids =
      .error { array_name := "elements", array_shape := .tup [m, 8],
               expected_shape := "(n, 4,)",
               extra := some "for type 'ElementType.TET4'" }
    ∧ Elements.postInit ElementType.tet4 [m, 4] [m] = .ok ()
    ∧ (Elements.postInit ElementType.tet4 [m, 4] ids = .ok () ∨
        ∃ e, Elements.postInit ElementType.tet4 [m, 4] ids = .error e ∧
          e.array_name = "ids") := by
  refine ⟨rfl, ?_, ?_⟩
  · simp only [Elements.postInit]
    rw [if_neg (by simp [show digitsVal (ElementType.tet4.getValue) = 4 from rfl])]
    rw [if_neg (by simp)]
  · by_cases hc : (ids.length ≠ 1 ∨ ids.getD 0 0 ≠ m)
    · refine Or.inr ⟨ArrayShapeError.mk "ids" (.tup ids)
        ("(" ++ toString m ++ ",)") none, ?_, rfl⟩
      simp only [Elements.postInit]
      rw [if_neg (by simp [show digitsVal (ElementType.tet4.getValue) = 4 from rfl])]
      rw [if_pos (by simpa using hc)]
      rfl
    · refine Or.inl ?_
      simp only [Elements.postInit]
      rw [if_neg (by simp [show digitsVal (ElementType.tet4.getValue) = 4 from rfl])]
      rw [if_neg (by simpa using hc)]

/-- C7 witness: the theorem at a concrete one-element block. -/
theorem c7_witness :
    Elements.postInit ElementType.tet4 [1, 8] [1] =
      .error { array_name := "elements", array_shape := .tup [1, 8],
               expected_shape := "(n, 4,)",
               extra := some "for type 'ElementType.TET4'" }
    ∧ Elements.postInit ElementType.tet4 [1, 4] [1] = .ok () :=
  ⟨(c7_elements_shape 1 [1]).1, (c7_elements_shape 1 [1]).2.1⟩

/-- C8 (confirmed): a `LoadCurve` fails at construction with an
`ArrayShapeError` naming `"points"` when its points are a list of fewer
than 2 tuples or an array whose shape is not `(n, 2)` with `n ≥ 2`, and
succeeds otherwise. -/
theorem c8_load_curve_points (pts : List (Int × Int)) (shape : List Nat) :
    (pts.length < 2 →
      LoadCurve.postInit (.list pts) =
        .error { array_name := "points", array_shape := .int pts.length,
                 expected_shape := "(n, 2), where n >= 2", extra := none })
    ∧ (2 ≤ pts.length → LoadCurve.postInit (.list pts) = .ok ())
    ∧ (¬(shape.length = 2 ∧ 2 ≤ shape.getD 0 0 ∧ shape.getD 1 0 = 2) →
        LoadCurve.postInit (.ndarray shape) =
          .error { array_name := "points", array_shape := .tup shape,
                   expected_shape := "(n, 2), where n >= 2", extra := none })
    ∧ (∀ n : Nat, 2 ≤ n → LoadCurve.postInit (.ndarray [n, 2]) = .ok ()) := by
  refine ⟨fun h => ?_, fun h => ?_, fun h => ?_, fun n hn => ?_⟩
  · simp only [LoadCurve.postInit]
    rw [if_pos h]
  · simp only [LoadCurve.postInit]
    rw [if_neg (by omega)]
  · simp only [LoadCurve.postInit]
    rw [if_pos h]
  · simp only [LoadCurve.postInit]
    rw [if_neg (by simp [hn])]

/-- C8 witness: the four branches of the theorem at concrete inputs. -/
theorem c8_witness :
    ([((0 : Int), (0 : Int))].length < 2 ∧
      LoadCurve.postInit (.list [((0 : Int), (0 : Int))]) =
        .error { array_name := "points", array_shape := .int 1,
                 expected_shape := "(n, 2), where n >= 2", extra := none })
    ∧ (2 ≤ [((0 : Int), (0 : Int)), ((1 : Int), (1 : Int))].length ∧
        LoadCurve.postInit (.list [((0 : Int), (0 : Int)), ((1 : Int), (1 : Int))]) = .ok ())
    ∧ (¬([1, 2].length = 2 ∧ 2 ≤ [1, 2].getD 0 0 ∧ [1, 2].getD 1 0 = 2) ∧
        LoadCurve.postInit (.ndarray [1, 2]) =
          .error { array_name := "points", array_shape := .tup [1, 2],
                   expected_shape := "(n, 2), where n >= 2", extra := none })
    ∧ (2 ≤ 2 ∧ LoadCurve.postInit (.ndarray [2, 2]) = .ok ()) := by
  have t := c8_load_curve_points [((0 : Int), (0 : Int))] [1, 2]
  have t2 := c8_load_curve_points [((0 : Int), (0 : Int)), ((1 : Int), (1 : Int))] [1, 2]
  exact ⟨⟨by norm_num, t.1 (by norm_num)⟩, ⟨by norm_num, t2.2.1 (by norm_num)⟩,
    ⟨by decide, t.2.2.1 (by decide)⟩, ⟨by norm_num, t.2.2.2 2 (by norm_num)⟩⟩

theorem feb_serializeFields (m c g mat me md b l ld o : List (String × DVal)) (ver : String) :
    serializeFields [] (febFields m c g mat me md b l ld o ver) =
      [("Module", .obj m), ("Control", .obj c), ("Globals", .obj g),
       ("Material", .obj mat), ("Mesh", .obj me), ("MeshDomains", .obj md),
       ("Boundary", .obj b), ("Loads", .obj l), ("LoadData", .obj ld),
       ("Output", .obj o), ("@version", .str ver)] := by
  simp +decide [febFields, serializeFields,
    show convert_key [] "Module" = "Module" from rfl,
    show convert_key [] "Control" = "Control" from rfl,
    show convert_key [] "Globals" = "Globals" from rfl,
    show convert_key [] "Material" = "Material" from rfl,
    show convert_key [] "Mesh" = "Mesh" from rfl,
    show convert_key [] "MeshDomains" = "MeshDomains" from rfl,
    show convert_key [] "Boundary" = "Boundary" from rfl,
    show convert_key [] "Loads" = "Loads" from rfl,
    show convert_key [] "LoadData" = "LoadData" from rfl,
    show convert_key [] "Output" = "Output" from rfl,
    show convert_key [] "_version" = "@version" from rfl]

/-- C9 (confirmed): for any well-formed `Feb` record (arbitrary child
section dictionaries, default version), `Feb.to_dict` returns exactly
one outer key `"febio_spec"`, whose inner mapping contains the
`"@version" : "3.0"` attribute entry, only ever holds the ten child
tags and `"@version"` as keys, and holds no raw `"_version"` or
`"_key"` key. -/
theorem c9_feb_root (m c g mat me md b l ld o : List (String × DVal)) :
    ∃ inner, Feb.to_dict m c g mat me md b l ld o "3.0" = [("febio_spec", DVal.obj inner)]
      ∧ ("@version", DVal.str "3.0") ∈ inner
      ∧ List.Sublist (inner.map Prod.fst)
          ["Module", "Control", "Globals", "Material", "Mesh", "MeshDomains",
           "Boundary", "Loads", "LoadData", "Output", "@version"]
      ∧ "_version" ∉ inner.map Prod.fst
      ∧ "_key" ∉ inner.map Prod.fst := by
  have hsub : List.Sublist
      ((serializeRec [] (febFields m c g mat me md b l ld o "3.0")).map Prod.fst)
      ["Module", "Control", "Globals", "Material", "Mesh", "MeshDomains",
       "Boundary", "Loads", "LoadData", "Output", "@version"] := by
    rw [serializeRec.eq_def, feb_serializeFields]
    rw [show unlist_dict
        [("Module", DVal.obj m), ("Control", DVal.obj c), ("Globals", DVal.obj g),
         ("Material", DVal.obj mat), ("Mesh", DVal.obj me), ("MeshDomains", DVal.obj md),
         ("Boundary", DVal.obj b), ("Loads", DVal.obj l), ("LoadData", DVal.obj ld),
         ("Output", DVal.obj o), ("@version", DVal.str "3.0")] =
        [("Module", DVal.obj m), ("Control", DVal.obj c), ("Globals", DVal.obj g),
         ("Material", DVal.obj mat), ("Mesh", DVal.obj me), ("MeshDomains", DVal.obj md),
         ("Boundary", DVal.obj b), ("Loads", DVal.obj l), ("LoadData", DVal.obj ld),
         ("Output", DVal.obj o), ("@version", DVal.str "3.0")] from rfl]
    have h := (List.filter_sublist (p := fun kv =>
        !(isNone kv.2) && (!(isSized kv.2) || !(dlen kv.2 == 0)))
      [("Module", DVal.obj m), ("Control", DVal.obj c), ("Globals", DVal.obj g),
       ("Material", DVal.obj mat), ("Mesh", DVal.obj me), ("MeshDomains", DVal.obj md),
       ("Boundary", DVal.obj b), ("Loads", DVal.obj l), ("LoadData", DVal.obj ld),
       ("Output", DVal.obj o), ("@version", DVal.str "3.0")]).map Prod.fst
    simpa using h
  refine ⟨serializeRec [] (febFields m c g mat me md b l ld o "3.0"), rfl, ?_,
    hsub, fun hmem => ?_, fun hmem => ?_⟩
  · rw [serializeRec.eq_def, feb_serializeFields]
    rw [show unlist_dict
        [("Module", DVal.obj m), ("Control", DVal.obj c), ("Globals", DVal.obj g),
         ("Material", DVal.obj mat), ("Mesh", DVal.obj me), ("MeshDomains", DVal.obj md),
         ("Boundary", DVal.obj b), ("Loads", DVal.obj l), ("LoadData", DVal.obj ld),
         ("Output", DVal.obj o), ("@version", DVal.str "3.0")] =
        [("Module", DVal.obj m), ("Control", DVal.obj c), ("Globals", DVal.obj g),
         ("Material", DVal.obj mat), ("Mesh", DVal.obj me), ("MeshDomains", DVal.obj md),
         ("Boundary", DVal.obj b), ("Loads", DVal.obj l), ("LoadData", DVal.obj ld),
         ("Output", DVal.obj o), ("@version", DVal.str "3.0")] from rfl]
    simp only [prune_dict, if_true]
    exact List.mem_filter.mpr ⟨by simp, by decide⟩
  · simpa using hsub.subset hmem
  · simpa using hsub.subset hmem

/-! ## Face grouping (C5) -/

theorem seenFrom_cons (ks : List String) (f : Face) (fs : List Face) :
    seenFrom ks (f :: fs) =
      seenFrom (if f.type.getValue ∈ ks then ks else ks ++ [f.type.getValue]) fs := rfl

theorem facesOf_cons (f : Face) (fs : List Face) (t : String) :
    facesOf (f :: fs) t =
      if f.type.getValue = t then f :: facesOf fs t else facesOf fs t := by
  simp [facesOf, List.filter_cons]

theorem unlistEntry_arr (k : String) (l : List DVal) :
    unlistEntry (k, .arr l) = (k, collapse l) := by
  cases l with
  | nil => rfl
  | cons a t =>
    cases t with
    | nil => rfl
    | cons b t2 => rfl

theorem foldl_addFace (faces : List Face) :
    ∀ (ks : List String) (g : String → List Face), ks.Nodup →
      (∀ t, t ∉ ks → g t = []) →
      List.foldl addFace (ks.map fun t => (t, g t)) faces =
        (seenFrom ks faces).map (fun t => (t, g t ++ facesOf faces t)) := by
  induction faces with
  | nil =>
    intro ks g _ _
    simp [seenFrom, facesOf]
  | cons f fs ih =>
    intro ks g hnd hout
    rw [List.foldl_cons, seenFrom_cons]
    by_cases hmem : f.type.getValue ∈ ks
    · have haf : addFace (ks.map fun t => (t, g t)) f =
          ks.map (fun t => (t, if t = f.type.getValue then g t ++ [f] else g t)) := by
        rw [addFace, if_pos (by simpa [List.map_map, Function.comp] using hmem)]
        rw [List.map_map]
        apply List.map_congr_left
        intro t _
        by_cases ht : t = f.type.getValue <;> simp [Function.comp, ht]
      rw [haf, if_pos hmem]
      rw [ih ks (fun t => if t = f.type.getValue then g t ++ [f] else g t) hnd
        (fun t htk => by
          show (if t = f.type.getValue then g t ++ [f] else g t) = []
          rw [if_neg (fun he => htk (by rw [he]; exact hmem)), hout t htk])]
      apply List.map_congr_left
      intro t _
      rw [facesOf_cons]
      by_cases ht : t = f.type.getValue
      · rw [if_pos ht, if_pos (by rw [ht]), List.append_assoc]
        simp
      · rw [if_neg ht, if_neg (fun he => ht he.symm)]
    · have haf : addFace (ks.map fun t => (t, g t)) f =
          (ks ++ [f.type.getValue]).map
            (fun t => (t, if t = f.type.getValue then [f] else g t)) := by
        rw [addFace, if_neg (by simpa [List.map_map, Function.comp] using hmem)]
        rw [List.map_append]
        have h1 : (ks.map fun t => (t, g t)) =
            ks.map (fun t => (t, if t = f.type.getValue then [f] else g t)) := by
          apply List.map_congr_left
          intro t htk
          rw [if_neg (fun he => hmem (by rw [← he]; exact htk))]
        rw [← h1]
        simp
      rw [haf, if_neg hmem]
      rw [ih (ks ++ [f.type.getValue])
        (fun t => if t = f.type.getValue then [f] else g t)
        (by simp [List.nodup_append, hnd, List.disjoint_singleton, hmem])
        (fun t htk => by
          show (if t = f.type.getValue then [f] else g t) = []
          simp only [List.mem_append, List.mem_singleton, not_or] at htk
          rw [if_neg htk.2, hout t htk.1])]
      apply List.map_congr_left
      intro t _
      rw [facesOf_cons]
      by_cases ht : t = f.type.getValue
      · rw [if_pos ht, if_pos (by rw [ht]), hout t (by rw [ht]; exact hmem)]
        simp
      · rw [if_neg ht, if_neg (fun he => ht he.symm)]

theorem groupFaces_eq (faces : List Face) :
    Surface.groupFaces faces =
      (seenFaceTypes faces).map (fun t => (t, facesOf faces t)) := by
  have h := foldl_addFace faces [] (fun _ => []) List.nodup_nil (fun _ _ => rfl)
  simpa [Surface.groupFaces, seenFaceTypes] using h

theorem seenFrom_nodup (faces : List Face) :
    ∀ ks : List String, ks.Nodup → (seenFrom ks faces).Nodup := by
  induction faces with
  | nil => intro ks h; simpa [seenFrom] using h
  | cons f fs ih =>
    intro ks h
    rw [seenFrom_cons]
    by_cases hm : f.type.getValue ∈ ks
    · rw [if_pos hm]; exact ih ks h
    · rw [if_neg hm]
      exact ih _ (by simp [List.nodup_append, h, List.disjoint_singleton, hm])

/-- C5 (confirmed): a `Surface` whose faces span exactly two distinct
face types (wire values `t1` then `t2` in first-seen order) serializes
to the `"@name"` attribute entry followed by exactly one sibling key
per face type, each holding that type's faces as `{"@id", "#text"}`
entries in their original relative order, a one-face group collapsed to
the bare face mapping. -/
theorem c5_surface_two_types (name : String) (faces : List Face) (t1 t2 : String)
    (h : seenFaceTypes faces = [t1, t2]) :
    t1 ≠ t2 ∧
    Surface.to_dict name faces =
      [("@name", DVal.str name),
       (t1, collapse ((facesOf faces t1).map Face.entry)),
       (t2, collapse ((facesOf faces t2).map Face.entry))] := by
  constructor
  · have hnd : ([t1, t2] : List String).Nodup := by
      have hn := seenFrom_nodup faces [] List.nodup_nil
      rwa [show seenFrom [] faces = seenFaceTypes faces from rfl, h] at hn
    intro he
    rw [he] at hnd
    simp at hnd
  · rw [Surface.to_dict, groupFaces_eq, h]
    simp [unlist_dict, unlistEntry_arr]

/-- C5 witness: a three-face surface with two `tri3` faces around one
`quad4` face, via the theorem. -/
theorem c5_witness :
    seenFaceTypes [⟨.tri3, 1, [1, 2, 3]⟩, ⟨.quad4, 2, [4, 5, 6, 7]⟩,
        ⟨.tri3, 3, [7, 8, 9]⟩] = ["tri3", "quad4"] ∧
    "tri3" ≠ "quad4" ∧
    Surface.to_dict "s" [⟨.tri3, 1, [1, 2, 3]⟩, ⟨.quad4, 2, [4, 5, 6, 7]⟩,
        ⟨.tri3, 3, [7, 8, 9]⟩] =
      [("@name", DVal.str "s"),
       ("tri3", DVal.arr [.obj [("@id", .int 1), ("#text", .str "1,2,3")],
                          .obj [("@id", .int 3), ("#text", .str "7,8,9")]]),
       ("quad4", DVal.obj [("@id", .int 2), ("#text", .str "4,5,6,7")])] := by
  have h := c5_surface_two_types "s"
    [⟨.tri3, 1, [1, 2, 3]⟩, ⟨.quad4, 2, [4, 5, 6, 7]⟩, ⟨.tri3, 3, [7, 8, 9]⟩]
    "tri3" "quad4" rfl
  exact ⟨rfl, h.1, h.2.trans rfl⟩

end Fepyio
